import Mathlib

/-!
nfs-test: metrics pipeline and workload control.

A shallow embedding of `nfstest.go`.

* `float64` is the type `F64`: finite values are rationals, with `-0`, the two
  infinities and NaN beside them.  `+` and `/` round the exact result to the
  nearest `float64`, ties to even (53 bits, subnormal numbers, overflow to an
  infinity); comparisons are the IEEE ones (false on NaN, `-0 == 0`).
* The `for { select { ... } }` loop of `rateMeter` is a fold of its two
  `case` bodies over the finite sequence of events it has received so far.
* The HTTP handlers are state-passing functions on the package globals they
  touch; a goroutine started by `go workloadGen(...)` is an entry in the list
  of goroutines that have not begun to execute yet.  A send on the unbuffered
  `stoppWorkload` completes only together with a receive, so `apiStop` is a
  function that may give no answer.
-/

namespace NfsTest

/-! ## float64 -/

/-- A `float64` value: `fin q` is the finite value `q` (with `fin 0` for `+0`),
`nzero` is `-0`, `inf neg` an infinity and `nan` a NaN. The operations below
return `float64` values; a rational that comes from outside is one when
`IsFloat` holds of it. -/
inductive F64 where
  | fin (q : ℚ)
  | nzero
  | inf (neg : Bool)
  | nan
deriving DecidableEq, Repr

namespace F64

/-- The zero of the given sign. -/
def zero (neg : Bool) : F64 := if neg then nzero else fin 0

/-- The sign bit. -/
def signBit : F64 → Bool
  | fin q => decide (q < 0)
  | nzero => true
  | inf s => s
  | nan => false

/-- The numerical value of a finite value. -/
def val : F64 → ℚ
  | fin q => q
  | _ => 0

/-- Round to the nearest integer, ties to even. -/
def rne (r : ℚ) : ℤ :=
  let f := ⌊r⌋
  if r - f < 1 / 2 then f
  else if 1 / 2 < r - f then f + 1
  else if f % 2 = 0 then f else f + 1

/-- Exponent of the unit in the last place in the binade of `a > 0`: 53 bits of
precision, least exponent `-1074` (subnormal numbers). -/
def ulpExp (a : ℚ) : ℤ := max (Int.log 2 a) (-1022) - 52

/-- The `float64` nearest to a rational (round to nearest, ties to even), with
overflow to an infinity and underflow to a signed zero. -/
def round (q : ℚ) : F64 :=
  if q = 0 then fin 0
  else
    let p := ulpExp |q|
    let m := rne (|q| / 2 ^ p)
    if m = 0 then zero (decide (q < 0))
    else if (2 : ℚ) ^ (1024 : ℤ) ≤ m * 2 ^ p then inf (decide (q < 0))
    else fin (if q < 0 then -(m * 2 ^ p) else m * 2 ^ p)

/-- The `+` of `float64`. -/
def add (x y : F64) : F64 :=
  match x, y with
  | nan, _ => nan
  | _, nan => nan
  | inf a, inf b => if a = b then inf a else nan
  | inf a, _ => inf a
  | _, inf b => inf b
  | nzero, nzero => nzero
  | x, y => if x.val + y.val = 0 then fin 0 else round (x.val + y.val)

/-- The `/` of `float64`. -/
def div (x y : F64) : F64 :=
  match x, y with
  | nan, _ => nan
  | _, nan => nan
  | inf _, inf _ => nan
  | inf a, y => inf (xor a y.signBit)
  | x, inf b => zero (xor x.signBit b)
  | x, y =>
    if y.val = 0 then
      if x.val = 0 then nan else inf (xor x.signBit y.signBit)
    else if x.val = 0 then zero (xor x.signBit y.signBit)
    else round (x.val / y.val)

/-- The `<` of `float64`. -/
def lt (x y : F64) : Bool :=
  match x, y with
  | nan, _ => false
  | _, nan => false
  | inf a, inf b => a && !b
  | inf a, _ => a
  | _, inf b => !b
  | x, y => decide (x.val < y.val)

/-- The `== 0` of `float64`. -/
def isZero : F64 → Bool
  | fin q => decide (q = 0)
  | nzero => true
  | _ => false

/-- The conversion `float64(n)` of an integer. -/
def ofInt (n : ℤ) : F64 := round n

/-- The rational is a `float64` value: rounding leaves it as it is. -/
def IsFloat (q : ℚ) : Prop := round q = fin q

instance decIsFloat (q : ℚ) : Decidable (IsFloat q) := by
  unfold IsFloat
  infer_instance

end F64

/-! ## Metrics store (lines 27-51) -/

/-- Metrics returned by the api (`type Metrics struct`). -/
structure Metrics where
  ReadAVG : F64
  ReadMax : F64
  ReadMin : F64
  Rate : F64
deriving DecidableEq, Repr

/-- The literal `Metrics{0, 0, 0, 0}`. -/
def Metrics.zero : Metrics := ⟨.fin 0, .fin 0, .fin 0, .fin 0⟩

/-- `func (m *Metrics) Update(ra, rm, rn, r float64)`: the four assignments made
between `Lock` and `Unlock`; the result is the stored value afterwards. -/
def Metrics.Update (m : Metrics) (ra rm rn r : F64) : Metrics :=
  let m1 := { m with ReadAVG := ra }
  let m2 := { m1 with ReadMax := rm }
  let m3 := { m2 with ReadMin := rn }
  { m3 with Rate := r }

/-- `func (m *Metrics) GetCurrent() Metrics`: `newM := *m` is returned; the pair is
(returned copy, stored value afterwards). -/
def Metrics.GetCurrent (m : Metrics) : Metrics × Metrics :=
  let newM := m
  (newM, m)

/-- One call on the store. -/
inductive StoreCall where
  | update (ra rm rn r : F64)
  | getCurrent
deriving DecidableEq, Repr

/-- Effect of one call on the stored value. -/
def StoreCall.apply (m : Metrics) : StoreCall → Metrics
  | .update ra rm rn r => m.Update ra rm rn r
  | .getCurrent => m.GetCurrent.2

/-- Stored value after a sequence of calls, oldest first. -/
def runStore (m : Metrics) (calls : List StoreCall) : Metrics :=
  calls.foldl StoreCall.apply m

/-- Arguments of an `Update` call as a snapshot; nothing for `GetCurrent`. -/
def StoreCall.args? : StoreCall → Option Metrics
  | .update ra rm rn r => some ⟨ra, rm, rn, r⟩
  | .getCurrent => none

/-- Arguments of the most recent `Update` among the calls, if there is one. -/
def lastUpdate? (calls : List StoreCall) : Option Metrics :=
  (calls.filterMap StoreCall.args?).getLast?

/-! ## Rate meter (lines 53-57, 90-114) -/

/-- Counters collected in each read operation (`type Counters struct`). -/
structure Counters where
  Read : F64
  Tick : F64
deriving DecidableEq, Repr

/-- The `case t := <-ticks:` body of `rateMeter`, on the accumulator `c`. -/
def onSample (c : Metrics) (t : Counters) : Metrics :=
  let c1 := { c with ReadAVG := c.ReadAVG.add t.Read }
  let c2 := { c1 with Rate := c1.Rate.add t.Tick }
  let c3 :=
    if c2.ReadMax.lt t.Read || c2.ReadMax.isZero then { c2 with ReadMax := t.Read } else c2
  if t.Read.lt c3.ReadMin || c3.ReadMin.isZero then { c3 with ReadMin := t.Read } else c3

/-- The local `avg` computed in the `case <-ticker.C:` body. -/
def tickAvg (c : Metrics) : F64 :=
  if (F64.fin 0).lt c.ReadAVG then c.ReadAVG.div c.Rate else .fin 0

/-- State of the aggregation: the local accumulator `c` of `rateMeter` and the
global `CurrentMetrics`. -/
structure Meter where
  c : Metrics
  CurrentMetrics : Metrics
deriving DecidableEq, Repr

/-- The `case <-ticker.C:` body of `rateMeter`. -/
def onTick (s : Meter) : Meter :=
  let avg := tickAvg s.c
  let cur := s.CurrentMetrics.Update avg s.c.ReadMax s.c.ReadMin s.c.Rate
  { c := Metrics.zero, CurrentMetrics := cur }

/-- What the `select` of `rateMeter` can receive. -/
inductive Event where
  | sample (t : Counters)
  | tick
deriving DecidableEq, Repr

/-- One iteration of the loop of `rateMeter`. -/
def Meter.step (s : Meter) : Event → Meter
  | .sample t => { s with c := onSample s.c t }
  | .tick => onTick s

/-- State on entry to the loop: `c := Metrics{0, 0, 0, 0}` and, from `main`,
`CurrentMetrics = Metrics{0, 0, 0, 0}`. -/
def Meter.init : Meter := ⟨Metrics.zero, Metrics.zero⟩

/-- The loop of `rateMeter` run over the events received, oldest first. -/
def rateMeter (s : Meter) (events : List Event) : Meter :=
  events.foldl Meter.step s

/-- The sample `workloadGen` sends for a latency: `Counters{latency, 1}`. -/
def sampleOf (latencyMs : ℚ) : Counters := ⟨.fin latencyMs, .fin 1⟩

/-- A window: the given latencies arrive as samples, then the ticker fires. -/
def window (latencies : List ℚ) : List Event :=
  latencies.map (fun l => Event.sample (sampleOf l)) ++ [Event.tick]

/-- The accumulator after the samples of a window, before its tick. -/
def accumulate (c : Metrics) (latencies : List ℚ) : Metrics :=
  (latencies.map sampleOf).foldl onSample c

/-- The `float64` sum of the latencies, added one by one from `0` in the order
of arrival. -/
def floatSum (latencies : List ℚ) : F64 :=
  latencies.foldl (fun a x => a.add (.fin x)) (.fin 0)

/-- The number of samples as `float64` counts it by adding `1` each time: the
count is exact up to `2^53` and stays there. -/
def floatCount (n : ℕ) : F64 := .fin (min n (2 ^ 53) : ℕ)

/-- The snapshot in `CurrentMetrics` after one window that starts from the
all-zero accumulator, `cur` being the snapshot stored before. -/
def publishedAfter (cur : Metrics) (latencies : List ℚ) : Metrics :=
  (rateMeter ⟨Metrics.zero, cur⟩ (window latencies)).CurrentMetrics

/-! ## Workload generator (lines 116-134) -/

/-- `Time.Nanosecond()`: the nanosecond offset within the second, in
`[0, 999999999]`, of an instant given in nanoseconds since the epoch. -/
def Nanosecond (t : Int) : Int := t % 1000000000

/-- The value `workloadGen` sends on `ticks` for a read that began at `now` and
ended at `done` (the second `time.Now()`):
`Counters{float64(time.Now().Nanosecond()-now.Nanosecond()) / 1000000, 1}`. -/
def workloadGenSample (now done : Int) : Counters :=
  ⟨(F64.ofInt (Nanosecond done - Nanosecond now)).div (.fin 1000000), .fin 1⟩

/-- Elapsed wall-clock time between two instants, in milliseconds. -/
def elapsedMs (now done : Int) : ℚ := ((done - now : Int) : ℚ) / 1000000

/-! ## Control handlers (lines 136-162) -/

/-- `time.Millisecond`, in nanoseconds (the unit of `time.Duration`). -/
def Millisecond : Int := 1000000

/-- Two's-complement wrap-around of `int64` arithmetic. -/
def wrap64 (x : Int) : Int := (x + 2 ^ 63) % 2 ^ 64 - 2 ^ 63

/-- `strconv.Atoi`: an optional sign followed by one or more decimal digits,
with a value that fits `int` (64 bits); anything else is an error. -/
def Atoi (s : String) : Option Int :=
  let cs := s.toList
  let signed : Bool × List Char :=
    match cs with
    | '-' :: r => (true, r)
    | '+' :: r => (false, r)
    | _ => (false, cs)
  let ds := signed.2
  if ds.isEmpty || !ds.all Char.isDigit then none
  else
    let n : Nat := ds.foldl (fun a d => 10 * a + (d.toNat - 48)) 0
    let v : Int := if signed.1 then -(n : Int) else (n : Int)
    if v < -(2 ^ 63) ∨ 2 ^ 63 - 1 < v then none else some v

/-- The part of `*http.Request` the handlers read: the query parameters. -/
structure Request where
  query : List (String × String)
deriving DecidableEq, Repr

/-- `r.URL.Query().Get(key)`: the first value of the key, `""` when absent. -/
def Request.Get (r : Request) (key : String) : String :=
  match r.query.find? (fun kv => kv.1 == key) with
  | some kv => kv.2
  | none => ""

/-- What a handler wrote to its `http.ResponseWriter`. -/
structure Response where
  status : Nat
  body : String
deriving DecidableEq, Repr

/-- The package state the control path touches. `stopsSent` counts the values
`true` sent on `stoppWorkload` and received; `spawned` holds the intervals of
the goroutines started by `go workloadGen(...)` that have not begun to execute;
`executing` holds those of the instances that have begun and have not returned;
`blocked` counts the `apiStop` handlers that found `workloadRunning` set (line
137) and wait in the send of line 138. -/
structure World where
  workloadRunning : Bool
  stopsSent : Nat
  spawned : List Int
  executing : List Int
  blocked : Nat
deriving DecidableEq, Repr

/-- State after `main` has set up the globals: no workload. -/
def World.init : World := ⟨false, 0, [], [], 0⟩

/-- `http.StatusBadRequest`. -/
def StatusBadRequest : Nat := 400

/-- `http.StatusOK`, the status of a response written without `WriteHeader`. -/
def StatusOK : Nat := 200

/-- `func apiStop(w http.ResponseWriter, r *http.Request)`, run without another
handler in between. `stoppWorkload` is unbuffered (`make(chan bool, 0)`), so
the send of line 138 completes only when an executing `workloadGen` receives
it in its `select`: with `workloadRunning` set and no instance executing the
handler stays in the send, for as long as none executes, and writes no answer
(`none`). The return of the receiving instance is `workloadGenStop`. -/
def apiStop (_r : Request) (g : World) : Option (Response × World) :=
  if g.workloadRunning then
    if g.executing.isEmpty then none
    else
      let g0 := { g with stopsSent := g.stopsSent + 1 }
      let g1 := { g0 with workloadRunning := false }
      some (⟨StatusOK, "success\n"⟩, g1)
  else some (⟨StatusOK, "success\n"⟩, g)

/-- Line 137 of `apiStop` alone: the handler tests `workloadRunning`; when it is
set the handler goes on to the send and waits there, otherwise it answers at
once and the state is as before. -/
def apiStopTest (_r : Request) (g : World) : World :=
  if g.workloadRunning then { g with blocked := g.blocked + 1 } else g

/-- Lines 138-141 of `apiStop` for a handler waiting in the send: the executing
instance `k` receives the value and returns, the handler clears
`workloadRunning` and answers. Without a waiting handler or without such an
instance nothing happens (`none`). -/
def apiStopSend (k : Nat) (g : World) : Option (Response × World) :=
  if 0 < g.blocked ∧ k < g.executing.length then
    some (⟨StatusOK, "success\n"⟩,
      { g with blocked := g.blocked - 1,
               stopsSent := g.stopsSent + 1,
               executing := g.executing.eraseIdx k,
               workloadRunning := false })
  else none

/-- The `interval` computed by `apiRun` from the request. -/
def apiRunInterval (r : Request) : Int :=
  let interval := 1000 * Millisecond
  if r.Get "interval" ≠ "" then
    match Atoi (r.Get "interval") with
    | none => interval
    | some i => wrap64 (i * Millisecond)
  else interval

/-- `func apiRun(w http.ResponseWriter, r *http.Request)`. -/
def apiRun (r : Request) (g : World) : Response × World :=
  if g.workloadRunning then
    (⟨StatusBadRequest, "Workload already running\n"⟩, g)
  else
    let interval := apiRunInterval r
    let g1 := { g with spawned := g.spawned ++ [interval] }
    (⟨StatusOK, "success\n"⟩, g1)

/-- The goroutine at position `k` of `spawned` begins to execute `workloadGen`:
its first statement is `workloadRunning = true`. -/
def workloadGenBegin (k : Nat) (g : World) : Option World :=
  match g.spawned.get? k with
  | none => none
  | some interval =>
    some { g with workloadRunning := true,
                  spawned := g.spawned.eraseIdx k,
                  executing := g.executing ++ [interval] }

/-- The instance at position `k` of `executing` takes `case stop := <-stopper:`
with `stop == true` and returns. -/
def workloadGenStop (k : Nat) (g : World) : Option World :=
  if k < g.executing.length then some { g with executing := g.executing.eraseIdx k }
  else none

/-- Steps of the control path. `run`, `stop` and `begin` are a whole handler or
the start of a goroutine, with nothing in between; `stopTest` and `stopSend`
are the two halves of a stop request that other steps may separate. -/
inductive Act where
  | run (r : Request)
  | stop (r : Request) (k : Nat)
  | begin (k : Nat)
  | stopTest (r : Request)
  | stopSend (k : Nat)
deriving DecidableEq, Repr

/-- The steps that are a whole handler or the start of a goroutine. -/
def Act.atomic : Act → Bool
  | .run _ => true
  | .stop _ _ => true
  | .begin _ => true
  | _ => false

/-- One step. A stop request that sends on the unbuffered `stoppWorkload`
completes together with the receive of the executing instance `k`; with no
such instance the send does not complete and there is no step. -/
def World.step (g : World) : Act → Option World
  | .run r => some (apiRun r g).2
  | .stop r k =>
    match apiStop r g with
    | none => none
    | some (_, g1) => if g.workloadRunning then workloadGenStop k g1 else some g1
  | .begin k => workloadGenBegin k g
  | .stopTest r => some (apiStopTest r g)
  | .stopSend k => (apiStopSend k g).map Prod.snd

/-- A sequence of steps, oldest first; `none` when one of them is not possible. -/
def World.run (g : World) : List Act → Option World
  | [] => some g
  | a :: as =>
    match g.step a with
    | none => none
    | some g1 => g1.run as

/-- Number of `workloadGen` goroutines alive: started and not returned. -/
def World.live (g : World) : Nat := g.spawned.length + g.executing.length

/-- The responses of the run requests among the steps, oldest first. -/
def World.runResponses (g : World) : List Act → List Response
  | [] => []
  | a :: as =>
    let here := match a with
      | .run r => [(apiRun r g).1]
      | _ => []
    match g.step a with
    | none => here
    | some g1 => here ++ g1.runResponses as

/-- `apiStop` called `n` times in a row, each call after the answer of the one
before; `none` when one of the calls gives no answer. -/
def apiStopTimes (r : Request) : Nat → World → Option World
  | 0, g => some g
  | n + 1, g =>
    match apiStop r g with
    | none => none
    | some (_, g1) => apiStopTimes r n g1

/-- While `workloadRunning` is set some instance is executing, so the send of
`apiStop` on the unbuffered channel has a receiver. -/
def World.stoppable (g : World) : Prop :=
  g.workloadRunning = true → g.executing ≠ []

/-! ## Lemmas on float64 rounding -/

namespace F64

theorem log_two_eq {q : ℚ} {e : ℤ} (hq : 0 < q) (h1 : (2 : ℚ) ^ e ≤ q)
    (h2 : q < (2 : ℚ) ^ (e + 1)) : Int.log 2 q = e := by
  have hb : 1 < (2 : ℕ) := by norm_num
  have a1 : e ≤ Int.log 2 q :=
    (Int.zpow_le_iff_le_log hb hq).1 (by simpa using h1)
  have a2 : Int.log 2 q < e + 1 :=
    (Int.lt_zpow_iff_log_lt hb hq).1 (by simpa using h2)
  omega

theorem rne_of_near {r : ℚ} {m : ℤ} (h1 : (m : ℚ) - 1 / 2 < r) (h2 : r < m + 1 / 2) :
    rne r = m := by
  unfold rne
  dsimp only
  by_cases hm : (m : ℚ) ≤ r
  · have hf : ⌊r⌋ = m := Int.floor_eq_iff.2 ⟨hm, by linarith⟩
    rw [hf, if_pos (by linarith)]
  · have hm' : r < m := not_le.1 hm
    have hf : ⌊r⌋ = m - 1 := Int.floor_eq_iff.2 ⟨by push_cast; linarith, by push_cast; linarith⟩
    rw [hf]
    have e1 : ¬ (r - ((m - 1 : ℤ) : ℚ) < 1 / 2) := by push_cast; linarith
    have e2 : 1 / 2 < r - ((m - 1 : ℤ) : ℚ) := by push_cast; linarith
    rw [if_neg e1, if_pos e2]
    ring

theorem rne_intCast (m : ℤ) : rne (m : ℚ) = m :=
  rne_of_near (by linarith) (by linarith)

theorem rne_tie_even {r : ℚ} {m : ℤ} (h : r = m + 1 / 2) (he : m % 2 = 0) : rne r = m := by
  unfold rne
  dsimp only
  have hf : ⌊r⌋ = m := Int.floor_eq_iff.2 ⟨by linarith, by linarith⟩
  rw [hf]
  have e1 : ¬ (r - (m : ℚ) < 1 / 2) := by linarith
  have e2 : ¬ (1 / 2 < r - (m : ℚ)) := by linarith
  rw [if_neg e1, if_neg e2, if_pos he]

theorem rne_eq_zero {r : ℚ} (h0 : 0 ≤ r) (h : r ≤ 1 / 2) : rne r = 0 := by
  rcases lt_or_eq_of_le h with h | h
  · exact rne_of_near (by push_cast; linarith) (by push_cast; linarith)
  · exact rne_tie_even (by push_cast; linarith) (by norm_num)

theorem floor_le_rne (r : ℚ) : ⌊r⌋ ≤ rne r := by
  unfold rne
  dsimp only
  split_ifs <;> omega

theorem rne_pos {r : ℚ} (h : 1 / 2 < r) : 0 < rne r := by
  by_cases h1 : 1 ≤ r
  · have : (1 : ℤ) ≤ ⌊r⌋ := Int.le_floor.2 (by simpa using h1)
    have := floor_le_rne r
    omega
  · have h1' : r < 1 := not_le.1 h1
    have : rne r = 1 := rne_of_near (by push_cast; linarith) (by push_cast; linarith)
    omega

/-- Evaluation of `round` at a positive rational from its binade and its
rounded significand. -/
theorem round_of_pos {q : ℚ} {e m : ℤ} (hq : 0 < q) (h1 : (2 : ℚ) ^ e ≤ q)
    (h2 : q < (2 : ℚ) ^ (e + 1))
    (hm : rne (q / 2 ^ (max e (-1022) - 52)) = m) (hm0 : m ≠ 0)
    (hlt : (m : ℚ) * 2 ^ (max e (-1022) - 52) < 2 ^ (1024 : ℤ)) :
    round q = fin (m * 2 ^ (max e (-1022) - 52)) := by
  unfold round ulpExp
  rw [if_neg (ne_of_gt hq), abs_of_pos hq, log_two_eq hq h1 h2]
  dsimp only
  rw [hm, if_neg hm0, if_neg (not_le.2 hlt), if_neg (not_lt.2 (le_of_lt hq))]

/-- A positive rational that is an integer multiple of the unit in the last
place of its binade, below `2^1024`, is a `float64`. -/
theorem round_of_exact {q : ℚ} {e : ℤ} (m : ℤ) (hq : 0 < q) (h1 : (2 : ℚ) ^ e ≤ q)
    (h2 : q < (2 : ℚ) ^ (e + 1)) (hx : q = m * 2 ^ (max e (-1022) - 52))
    (hlt : q < 2 ^ (1024 : ℤ)) : round q = fin q := by
  have hp : (0 : ℚ) < 2 ^ (max e (-1022) - 52) := zpow_pos (by norm_num) _
  have hm : rne (q / 2 ^ (max e (-1022) - 52)) = m := by
    have : q / 2 ^ (max e (-1022) - 52) = m := by
      rw [hx]; field_simp
    rw [this, rne_intCast]
  have hm0 : m ≠ 0 := by
    intro h0
    rw [h0] at hx
    simp at hx
    exact absurd hx (ne_of_gt hq)
  rw [round_of_pos hq h1 h2 hm hm0 (by rw [← hx]; exact hlt), ← hx]

/-- Every natural number up to `2^53` is a `float64`. -/
theorem round_natCast (n : ℕ) (h : n ≤ 2 ^ 53) : round (n : ℚ) = fin n := by
  rcases Nat.eq_zero_or_pos n with h0 | hpos
  · subst h0; simp [round]
  have hq : (0 : ℚ) < n := by exact_mod_cast hpos
  have hlt : (n : ℚ) < 2 ^ (1024 : ℤ) := by
    have : (n : ℚ) ≤ 2 ^ 53 := by exact_mod_cast h
    have : (2 : ℚ) ^ 53 < 2 ^ (1024 : ℤ) := by norm_num
    linarith
  rcases Nat.lt_or_ge n (2 ^ 53) with hlt53 | hge
  · -- below 2^53: the unit in the last place is at most 1
    set k := Nat.log 2 n with hk
    have hk1 : 2 ^ k ≤ n := Nat.pow_log_le_self 2 (Nat.pos_iff_ne_zero.1 hpos)
    have hk2 : n < 2 ^ (k + 1) := Nat.lt_pow_succ_log_self (by norm_num) n
    have hk52 : k ≤ 52 := by
      by_contra hc
      have : 53 ≤ k := by omega
      have : 2 ^ 53 ≤ 2 ^ k := Nat.pow_le_pow_right (by norm_num) this
      omega
    have e1 : (2 : ℚ) ^ (k : ℤ) ≤ n := by
      rw [zpow_natCast]; exact_mod_cast hk1
    have e2 : (n : ℚ) < (2 : ℚ) ^ ((k : ℤ) + 1) := by
      have : ((k : ℤ) + 1) = ((k + 1 : ℕ) : ℤ) := by push_cast; ring
      rw [this, zpow_natCast]; exact_mod_cast hk2
    have hmax : max (k : ℤ) (-1022) - 52 = -((52 - k : ℕ) : ℤ) := by
      rw [max_eq_left (by omega)]
      omega
    refine round_of_exact ((n * 2 ^ (52 - k) : ℕ) : ℤ) hq e1 e2 ?_ hlt
    rw [hmax, zpow_neg, zpow_natCast]
    push_cast
    field_simp
  · have hn : n = 2 ^ 53 := le_antisymm h hge
    subst hn
    refine round_of_exact (e := 53) (2 ^ 52) hq (by norm_num) (by norm_num) (by norm_num) hlt

/-- The next integer after `2^53` is not a `float64`: the tie goes to the even
significand, `2^53` itself. -/
theorem round_two_pow_53_succ : round (2 ^ 53 + 1) = fin (2 ^ 53) := by
  have h := round_of_pos (q := 2 ^ 53 + 1) (e := 53) (m := 2 ^ 52) (by norm_num) (by norm_num)
    (by norm_num) (rne_tie_even (by norm_num) (by norm_num)) (by norm_num) (by norm_num)
  rw [h]
  norm_num

/-- Rounding is odd: a non-zero result changes its sign with the argument. -/
theorem round_neg_of_pos {q v : ℚ} (hq : 0 < q) (hv : v ≠ 0) (h : round q = fin v) :
    round (-q) = fin (-v) := by
  unfold round at h ⊢
  have hq' : ¬ (q < 0) := not_lt.2 (le_of_lt hq)
  have hnq : -q < 0 := by linarith
  rw [if_neg (ne_of_gt hq)] at h
  rw [if_neg (by linarith : -q ≠ 0), abs_neg]
  dsimp only at h ⊢
  by_cases hm : rne (|q| / 2 ^ ulpExp |q|) = 0
  · rw [if_pos hm] at h
    simp [zero, hq'] at h
    exact absurd h.symm hv
  · rw [if_neg hm] at h
    rw [if_neg hm]
    by_cases ho : (2 : ℚ) ^ (1024 : ℤ) ≤ rne (|q| / 2 ^ ulpExp |q|) * 2 ^ ulpExp |q|
    · rw [if_pos ho] at h
      exact absurd h (by simp)
    · rw [if_neg ho, if_neg hq'] at h
      rw [if_neg ho, if_pos hnq]
      injection h with h
      rw [h]

/-- Every integer of magnitude up to `2^53` is a `float64`. -/
theorem round_intCast (z : ℤ) (h : z.natAbs ≤ 2 ^ 53) : round (z : ℚ) = fin z := by
  rcases lt_trichotomy z 0 with hz | hz | hz
  · have hn : ((z.natAbs : ℕ) : ℚ) = -(z : ℚ) := by
      have hz' : ((z.natAbs : ℕ) : ℤ) = -z := by omega
      rw [← Int.cast_natCast, hz', Int.cast_neg]
    have hr := round_natCast z.natAbs h
    have hpos : (0 : ℚ) < (z.natAbs : ℚ) := by
      rw [hn]
      have : (z : ℚ) < 0 := by exact_mod_cast hz
      linarith
    have := round_neg_of_pos hpos (ne_of_gt hpos) hr
    rw [hn] at this
    simpa using this
  · subst hz; simp [round]
  · have hn : ((z.natAbs : ℕ) : ℚ) = (z : ℚ) := by
      have hz' : ((z.natAbs : ℕ) : ℤ) = z := by omega
      rw [← Int.cast_natCast, hz']
    have hr := round_natCast z.natAbs h
    rwa [hn] at hr

/-- Above half the least subnormal number rounding gives a positive value or
`+Inf`. -/
theorem round_pos_of_gt {q : ℚ} (hq : (2 : ℚ) ^ (-1075 : ℤ) < q) :
    (∃ v, 0 < v ∧ round q = fin v) ∨ round q = inf false := by
  have h0 : (0 : ℚ) < q := lt_trans (zpow_pos (by norm_num) _) hq
  have hq' : ¬ (q < 0) := not_lt.2 (le_of_lt h0)
  have hp : (0 : ℚ) < 2 ^ ulpExp q := zpow_pos (by norm_num) _
  have hm : 0 < rne (q / 2 ^ ulpExp q) := by
    apply rne_pos
    rw [lt_div_iff₀ hp]
    unfold ulpExp
    rcases le_total (Int.log 2 q) (-1022) with hl | hl
    · rw [max_eq_right hl]
      have : (1 / 2 : ℚ) * 2 ^ ((-1022 : ℤ) - 52) = 2 ^ (-1075 : ℤ) := by
        rw [show ((-1022 : ℤ) - 52) = (-1075) + 1 by norm_num, zpow_add_one₀ (by norm_num)]
        ring
      rw [this]
      exact hq
    · rw [max_eq_left hl]
      have hle : (2 : ℚ) ^ Int.log 2 q ≤ q := by
        have := Int.zpow_log_le_self (b := 2) (r := q) (by norm_num) h0
        simpa using this
      have e : (2 : ℚ) ^ (Int.log 2 q - 52) = 2 ^ Int.log 2 q / 2 ^ (52 : ℤ) :=
        zpow_sub₀ (by norm_num) _ _
      rw [e]
      have hpos : (0 : ℚ) < 2 ^ Int.log 2 q := zpow_pos (by norm_num) _
      have : (1 / 2 : ℚ) * (2 ^ Int.log 2 q / 2 ^ (52 : ℤ)) < 2 ^ Int.log 2 q := by
        have h52 : (2 : ℚ) ^ (52 : ℤ) = 4503599627370496 := by norm_num
        rw [h52]
        linarith
      linarith
  unfold round
  rw [if_neg (ne_of_gt h0), abs_of_pos h0]
  dsimp only
  rw [if_neg (ne_of_gt hm)]
  by_cases ho : (2 : ℚ) ^ (1024 : ℤ) ≤ rne (q / 2 ^ ulpExp q) * 2 ^ ulpExp q
  · right
    rw [if_pos ho]
    simp [hq']
  · left
    rw [if_neg ho, if_neg hq']
    exact ⟨_, mul_pos (by exact_mod_cast hm) hp, rfl⟩

/-- Up to half the least subnormal number a positive rational rounds to `+0`. -/
theorem round_small {q : ℚ} (h0 : 0 < q) (h : q ≤ (2 : ℚ) ^ (-1075 : ℤ)) :
    round q = fin 0 := by
  have hlog : Int.log 2 q < -1022 := by
    apply (Int.lt_zpow_iff_log_lt (b := 2) (by norm_num) h0).1
    have : (2 : ℚ) ^ (-1075 : ℤ) < 2 ^ (-1022 : ℤ) :=
      zpow_lt_zpow_right₀ (by norm_num) (by norm_num)
    have := lt_of_le_of_lt h this
    simpa using this
  have hu : ulpExp q = -1074 := by
    unfold ulpExp
    rw [max_eq_right (le_of_lt hlog)]
    norm_num
  have hm : rne (q / 2 ^ ulpExp q) = 0 := by
    apply rne_eq_zero
    · exact div_nonneg (le_of_lt h0) (le_of_lt (zpow_pos (by norm_num) _))
    · rw [hu, div_le_iff₀ (zpow_pos (by norm_num) _)]
      have : (1 / 2 : ℚ) * 2 ^ (-1074 : ℤ) = 2 ^ (-1075 : ℤ) := by
        rw [show (-1074 : ℤ) = (-1075) + 1 by norm_num, zpow_add_one₀ (by norm_num)]
        ring
      rw [this]
      exact h
  unfold round
  rw [if_neg (ne_of_gt h0), abs_of_pos h0]
  dsimp only
  rw [if_pos hm]
  simp [zero, not_lt.2 (le_of_lt h0)]

/-- A positive `float64` is above half the least subnormal number. -/
theorem IsFloat.gt_of_pos {q : ℚ} (hf : IsFloat q) (h0 : 0 < q) :
    (2 : ℚ) ^ (-1075 : ℤ) < q := by
  by_contra hc
  have := round_small h0 (not_lt.1 hc)
  unfold IsFloat at hf
  rw [this] at hf
  injection hf with hf
  exact absurd hf.symm (ne_of_gt h0)

@[simp] theorem lt_fin_fin (a b : ℚ) : (fin a).lt (fin b) = decide (a < b) := rfl

@[simp] theorem isZero_fin (a : ℚ) : (fin a).isZero = decide (a = 0) := rfl

theorem add_fin_fin (a b : ℚ) :
    (fin a).add (fin b) = if a + b = 0 then fin 0 else round (a + b) := rfl

theorem div_fin_fin (a b : ℚ) (ha : a ≠ 0) (hb : b ≠ 0) :
    (fin a).div (fin b) = round (a / b) := by
  simp [div, val, ha, hb]

/-- Adding a positive `float64` to a positive value or `+Inf` gives a positive
value or `+Inf`. -/
theorem add_pos_of_pos {s : F64} {x : ℚ}
    (hs : s = fin 0 ∨ (∃ v, 0 < v ∧ s = fin v) ∨ s = inf false)
    (hx : 0 < x) (hf : IsFloat x) :
    (∃ v, 0 < v ∧ s.add (fin x) = fin v) ∨ s.add (fin x) = inf false := by
  rcases hs with hs | ⟨v, hv, hs⟩ | hs
  · subst hs
    rw [add_fin_fin, if_neg (by linarith), zero_add]
    exact round_pos_of_gt (hf.gt_of_pos hx)
  · subst hs
    rw [add_fin_fin, if_neg (by linarith)]
    exact round_pos_of_gt (lt_trans (hf.gt_of_pos hx) (by linarith))
  · subst hs
    right
    rfl

end F64

/-! ## Lemmas on the rate meter -/

theorem onSample_ReadAVG (c : Metrics) (t : Counters) :
    (onSample c t).ReadAVG = c.ReadAVG.add t.Read := by
  unfold onSample
  dsimp only
  split_ifs <;> rfl

theorem onSample_Rate (c : Metrics) (t : Counters) :
    (onSample c t).Rate = c.Rate.add t.Tick := by
  unfold onSample
  dsimp only
  split_ifs <;> rfl

theorem onSample_ReadMax (c : Metrics) (t : Counters) :
    (onSample c t).ReadMax =
      if c.ReadMax.lt t.Read || c.ReadMax.isZero then t.Read else c.ReadMax := by
  unfold onSample
  dsimp only
  split_ifs <;> rfl

theorem onSample_ReadMin (c : Metrics) (t : Counters) :
    (onSample c t).ReadMin =
      if t.Read.lt c.ReadMin || c.ReadMin.isZero then t.Read else c.ReadMin := by
  unfold onSample
  dsimp only
  split_ifs <;> rfl

theorem accumulate_nil (c : Metrics) : accumulate c [] = c := rfl

theorem accumulate_snoc (c : Metrics) (ls : List ℚ) (x : ℚ) :
    accumulate c (ls ++ [x]) = onSample (accumulate c ls) (sampleOf x) := by
  simp [accumulate, List.foldl_append]

theorem floatSum_snoc (ls : List ℚ) (x : ℚ) :
    floatSum (ls ++ [x]) = (floatSum ls).add (.fin x) := by
  simp [floatSum, List.foldl_append]

/-- The accumulated sum is the `float64` sum of the latencies. -/
theorem accumulate_ReadAVG (ls : List ℚ) :
    (accumulate Metrics.zero ls).ReadAVG = floatSum ls := by
  induction ls using List.reverseRecOn with
  | nil => rfl
  | append_singleton ls x ih =>
    rw [accumulate_snoc, onSample_ReadAVG, ih, floatSum_snoc]
    rfl

theorem floatCount_succ (n : ℕ) : (floatCount n).add (.fin 1) = floatCount (n + 1) := by
  unfold floatCount
  rw [F64.add_fin_fin]
  have hne : ((min n (2 ^ 53) : ℕ) : ℚ) + 1 ≠ 0 := by positivity
  rw [if_neg hne]
  rcases Nat.lt_or_ge n (2 ^ 53) with h | h
  · rw [min_eq_left (le_of_lt h), min_eq_left (by omega : n + 1 ≤ 2 ^ 53)]
    have := F64.round_natCast (n + 1) (by omega)
    push_cast at this ⊢
    exact this
  · rw [min_eq_right h, min_eq_right (by omega : 2 ^ 53 ≤ n + 1)]
    have := F64.round_two_pow_53_succ
    push_cast
    exact this

/-- The accumulated count of samples of count 1. -/
theorem accumulate_Rate (ls : List ℚ) :
    (accumulate Metrics.zero ls).Rate = floatCount ls.length := by
  induction ls using List.reverseRecOn with
  | nil => simp [accumulate_nil, Metrics.zero, floatCount]
  | append_singleton ls x ih =>
    rw [accumulate_snoc, onSample_Rate, ih, List.length_append, List.length_singleton]
    exact floatCount_succ _

/-- Running the events of a window is accumulating its samples and then ticking. -/
theorem rateMeter_window (s : Meter) (ls : List ℚ) :
    rateMeter s (window ls) = onTick { s with c := accumulate s.c ls } := by
  unfold rateMeter window
  rw [List.foldl_append]
  have h : ∀ (l : List ℚ) (s : Meter),
      List.foldl Meter.step s (l.map (fun l => Event.sample (sampleOf l)))
        = { s with c := accumulate s.c l } := by
    intro l
    induction l with
    | nil => intro s; rfl
    | cons x l ih =>
      intro s
      simp only [List.map_cons, List.foldl_cons]
      rw [ih]
      simp [Meter.step, accumulate]
  rw [h]
  rfl

theorem rateMeter_append (s : Meter) (e₁ e₂ : List Event) :
    rateMeter s (e₁ ++ e₂) = rateMeter (rateMeter s e₁) e₂ := by
  simp [rateMeter, List.foldl_append]

theorem publishedAfter_eq (cur : Metrics) (ls : List ℚ) :
    publishedAfter cur ls =
      ⟨tickAvg (accumulate Metrics.zero ls), (accumulate Metrics.zero ls).ReadMax,
        (accumulate Metrics.zero ls).ReadMin, (accumulate Metrics.zero ls).Rate⟩ := by
  unfold publishedAfter
  rw [rateMeter_window]
  rfl

/-- With no zero latency in the window the accumulator holds the greatest and
the least latency seen. -/
theorem accumulate_bounds (ls : List ℚ) (hne : ls ≠ []) (hnz : ∀ x ∈ ls, x ≠ 0) :
    (∃ M ∈ ls, (accumulate Metrics.zero ls).ReadMax = .fin M ∧ ∀ x ∈ ls, x ≤ M) ∧
    (∃ m ∈ ls, (accumulate Metrics.zero ls).ReadMin = .fin m ∧ ∀ x ∈ ls, m ≤ x) := by
  induction ls using List.reverseRecOn with
  | nil => exact absurd rfl hne
  | append_singleton ls x ih =>
    rw [accumulate_snoc, onSample_ReadMax, onSample_ReadMin]
    by_cases hl : ls = []
    · subst hl
      simp [accumulate_nil, Metrics.zero, sampleOf]
    · have hnz' : ∀ y ∈ ls, y ≠ 0 := fun y hy => hnz y (List.mem_append_left _ hy)
      obtain ⟨⟨M, hM, hMe, hMub⟩, ⟨m, hm, hme, hmlb⟩⟩ := ih hl hnz'
      have hM0 := hnz' _ hM
      have hm0 := hnz' _ hm
      rw [hMe, hme]
      simp only [sampleOf, F64.lt_fin_fin, F64.isZero_fin, hM0, hm0, decide_False,
        Bool.or_false, decide_eq_true_eq]
      constructor
      · by_cases h : M < x
        · refine ⟨x, by simp, by rw [if_pos h], ?_⟩
          intro y hy
          rcases List.mem_append.1 hy with hy | hy
          · exact le_of_lt (lt_of_le_of_lt (hMub y hy) h)
          · rw [List.mem_singleton.1 hy]
        · refine ⟨M, List.mem_append_left _ hM, by rw [if_neg h], ?_⟩
          intro y hy
          rcases List.mem_append.1 hy with hy | hy
          · exact hMub y hy
          · rw [List.mem_singleton.1 hy]; exact not_lt.1 h
      · by_cases h : x < m
        · refine ⟨x, by simp, by rw [if_pos h], ?_⟩
          intro y hy
          rcases List.mem_append.1 hy with hy | hy
          · exact le_of_lt (lt_of_lt_of_le h (hmlb y hy))
          · rw [List.mem_singleton.1 hy]
        · refine ⟨m, List.mem_append_left _ hm, by rw [if_neg h], ?_⟩
          intro y hy
          rcases List.mem_append.1 hy with hy | hy
          · exact hmlb y hy
          · rw [List.mem_singleton.1 hy]; exact not_lt.1 h

/-- With no negative latency in the window the accumulator holds the greatest
latency seen, zero latencies included. -/
theorem accumulate_max_nonneg (ls : List ℚ) (hne : ls ≠ []) (hnn : ∀ x ∈ ls, 0 ≤ x) :
    ∃ M ∈ ls, (accumulate Metrics.zero ls).ReadMax = .fin M ∧ ∀ x ∈ ls, x ≤ M := by
  induction ls using List.reverseRecOn with
  | nil => exact absurd rfl hne
  | append_singleton ls x ih =>
    rw [accumulate_snoc, onSample_ReadMax]
    by_cases hl : ls = []
    · subst hl
      simp [accumulate_nil, Metrics.zero, sampleOf]
    · have hnn' : ∀ y ∈ ls, 0 ≤ y := fun y hy => hnn y (List.mem_append_left _ hy)
      have hx : 0 ≤ x := hnn x (List.mem_append_right _ (List.mem_singleton_self x))
      obtain ⟨M, hM, hMe, hMub⟩ := ih hl hnn'
      rw [hMe]
      simp only [sampleOf, F64.lt_fin_fin, F64.isZero_fin, Bool.or_eq_true, decide_eq_true_eq]
      by_cases h : M < x ∨ M = 0
      · refine ⟨x, by simp, by rw [if_pos h], ?_⟩
        intro y hy
        rcases List.mem_append.1 hy with hy | hy
        · rcases h with h | h
          · exact le_of_lt (lt_of_le_of_lt (hMub y hy) h)
          · exact le_trans (h ▸ hMub y hy) hx
        · rw [List.mem_singleton.1 hy]
      · refine ⟨M, List.mem_append_left _ hM, by rw [if_neg h], ?_⟩
        intro y hy
        rcases List.mem_append.1 hy with hy | hy
        · exact hMub y hy
        · rw [List.mem_singleton.1 hy]
          exact not_lt.1 (fun hlt => h (Or.inl hlt))

/-- The `float64` sum of positive `float64` latencies is positive or `+Inf`. -/
theorem floatSum_pos (ls : List ℚ) (hne : ls ≠ []) (hpos : ∀ x ∈ ls, 0 < x)
    (hfl : ∀ x ∈ ls, F64.IsFloat x) :
    (∃ v, 0 < v ∧ floatSum ls = .fin v) ∨ floatSum ls = .inf false := by
  induction ls using List.reverseRecOn with
  | nil => exact absurd rfl hne
  | append_singleton ls x ih =>
    rw [floatSum_snoc]
    have hx : 0 < x := hpos x (List.mem_append_right _ (List.mem_singleton_self x))
    have hf : F64.IsFloat x := hfl x (List.mem_append_right _ (List.mem_singleton_self x))
    apply F64.add_pos_of_pos _ hx hf
    by_cases hl : ls = []
    · subst hl
      left; rfl
    · right
      exact ih hl (fun y hy => hpos y (List.mem_append_left _ hy))
        (fun y hy => hfl y (List.mem_append_left _ hy))

theorem floatSum_pos_lt (ls : List ℚ) (hne : ls ≠ []) (hpos : ∀ x ∈ ls, 0 < x)
    (hfl : ∀ x ∈ ls, F64.IsFloat x) : (F64.fin 0).lt (floatSum ls) = true := by
  rcases floatSum_pos ls hne hpos hfl with ⟨v, hv, h⟩ | h
  · rw [h]; simp [hv]
  · rw [h]; rfl

/-! ## Claims on the rate meter -/

/-- C1 fails as stated: the window `[1, 1, 2]` of positive latencies has sum 4
and 3 samples, and the tick publishes the `float64` quotient
`6004799503160661 / 2^52`, which is not `4 / 3`. -/
theorem rateMeter_avg_rounded :
    ([1, 1, 2] : List ℚ) ≠ [] ∧ (∀ x ∈ ([1, 1, 2] : List ℚ), 0 < x) ∧
    (publishedAfter Metrics.zero [1, 1, 2]).ReadAVG
      = .fin (6004799503160661 / 4503599627370496) ∧
    (publishedAfter Metrics.zero [1, 1, 2]).ReadAVG
      ≠ .fin (([1, 1, 2] : List ℚ).sum / (([1, 1, 2] : List ℚ).length : ℚ)) := by
  have r1 : F64.round 1 = .fin 1 := by simpa using F64.round_natCast 1 (by norm_num)
  have r2 : F64.round 2 = .fin 2 := by simpa using F64.round_natCast 2 (by norm_num)
  have r3 : F64.round 3 = .fin 3 := by simpa using F64.round_natCast 3 (by norm_num)
  have r4 : F64.round 4 = .fin 4 := by simpa using F64.round_natCast 4 (by norm_num)
  have r43 : F64.round (4 / 3) = .fin (6004799503160661 / 4503599627370496) := by
    have h := F64.round_of_pos (q := 4 / 3) (e := 0) (m := 6004799503160661) (by norm_num)
      (by norm_num) (by norm_num) (F64.rne_of_near (by norm_num) (by norm_num)) (by norm_num)
      (by norm_num)
    rw [h]
    norm_num
  have hs : floatSum [1, 1, 2] = .fin 4 := by
    norm_num [floatSum, F64.add_fin_fin, r1, r2, r4]
  have hp : (publishedAfter Metrics.zero [1, 1, 2]).ReadAVG
      = .fin (6004799503160661 / 4503599627370496) := by
    rw [publishedAfter_eq]
    simp only [tickAvg, accumulate_ReadAVG, accumulate_Rate, hs, floatCount]
    norm_num [F64.div_fin_fin, r43]
  refine ⟨by simp, ?_, hp, ?_⟩
  · intro x hx
    simp only [List.mem_cons, List.mem_singleton, List.not_mem_nil, or_false] at hx
    rcases hx with rfl | rfl | rfl <;> norm_num
  · rw [hp]
    norm_num

/-- C1, amended: a non-empty window of strictly positive `float64` latencies
(count 1 each), begun with the all-zero accumulator, publishes avg = the
`float64` quotient of the `float64` running sum of the latencies by the count
of samples, max = the greatest latency, min = the least latency and rate =
the count of samples (exact up to `2^53` samples); one sample `L > 0`
publishes `{L, L, L, 1}` and `[10, 20, 30]` publishes `{20, 30, 10, 3}`. -/
theorem rateMeter_positive_window (cur : Metrics) (ls : List ℚ) (hne : ls ≠ [])
    (hpos : ∀ x ∈ ls, 0 < x) (hfl : ∀ x ∈ ls, F64.IsFloat x) :
    (publishedAfter cur ls).ReadAVG = (floatSum ls).div (floatCount ls.length) ∧
    (∃ M ∈ ls, (publishedAfter cur ls).ReadMax = .fin M ∧ ∀ x ∈ ls, x ≤ M) ∧
    (∃ m ∈ ls, (publishedAfter cur ls).ReadMin = .fin m ∧ ∀ x ∈ ls, m ≤ x) ∧
    (publishedAfter cur ls).Rate = floatCount ls.length ∧
    (ls.length ≤ 2 ^ 53 → (publishedAfter cur ls).Rate = .fin ls.length) ∧
    (∀ L : ℚ, 0 < L → F64.IsFloat L →
      publishedAfter cur [L] = ⟨.fin L, .fin L, .fin L, .fin 1⟩) ∧
    publishedAfter cur [10, 20, 30] = ⟨.fin 20, .fin 30, .fin 10, .fin 3⟩ := by
  have hb := accumulate_bounds ls hne (fun x hx => ne_of_gt (hpos x hx))
  have r1 : F64.round 1 = .fin 1 := by simpa using F64.round_natCast 1 (by norm_num)
  refine ⟨?_, ?_, ?_, ?_, ?_, ?_, ?_⟩
  · rw [publishedAfter_eq]
    simp only [tickAvg, accumulate_ReadAVG, accumulate_Rate,
      floatSum_pos_lt ls hne hpos hfl, if_true]
  · rw [publishedAfter_eq]; exact hb.1
  · rw [publishedAfter_eq]; exact hb.2
  · rw [publishedAfter_eq]
    exact accumulate_Rate ls
  · intro hlen
    rw [publishedAfter_eq]
    simp only [accumulate_Rate, floatCount, min_eq_left hlen]
  · intro L hL hf
    have hL0 : L ≠ 0 := ne_of_gt hL
    have hr : F64.round L = .fin L := hf
    rw [publishedAfter_eq]
    simp [accumulate, onSample, tickAvg, sampleOf, Metrics.zero, F64.add_fin_fin,
      F64.div_fin_fin, hL0, hL, hr, r1]
  · have r10 : F64.round 10 = .fin 10 := by simpa using F64.round_natCast 10 (by norm_num)
    have r20 : F64.round 20 = .fin 20 := by simpa using F64.round_natCast 20 (by norm_num)
    have r30 : F64.round 30 = .fin 30 := by simpa using F64.round_natCast 30 (by norm_num)
    have r60 : F64.round 60 = .fin 60 := by simpa using F64.round_natCast 60 (by norm_num)
    have r2 : F64.round 2 = .fin 2 := by simpa using F64.round_natCast 2 (by norm_num)
    have r3 : F64.round 3 = .fin 3 := by simpa using F64.round_natCast 3 (by norm_num)
    rw [publishedAfter_eq]
    norm_num [accumulate, onSample, tickAvg, sampleOf, Metrics.zero, F64.add_fin_fin,
      F64.div_fin_fin, r1, r2, r3, r10, r20, r30, r60]

/-- Witness of the amended C1: the window `[10, 20, 30]`. -/
theorem rateMeter_positive_window_witness :
    ([10, 20, 30] : List ℚ) ≠ [] ∧ (∀ x ∈ ([10, 20, 30] : List ℚ), 0 < x) ∧
    (∀ x ∈ ([10, 20, 30] : List ℚ), F64.IsFloat x) ∧
    (publishedAfter Metrics.zero [10, 20, 30]).ReadAVG
      = (floatSum [10, 20, 30]).div (floatCount ([10, 20, 30] : List ℚ).length) ∧
    (publishedAfter Metrics.zero [10, 20, 30]).Rate
      = floatCount ([10, 20, 30] : List ℚ).length :=
  have h1 : ([10, 20, 30] : List ℚ) ≠ [] := by simp
  have h2 : ∀ x ∈ ([10, 20, 30] : List ℚ), 0 < x := by
    intro x hx
    simp only [List.mem_cons, List.mem_singleton, List.not_mem_nil, or_false] at hx
    rcases hx with rfl | rfl | rfl <;> norm_num
  have h3 : ∀ x ∈ ([10, 20, 30] : List ℚ), F64.IsFloat x := by
    intro x hx
    simp only [List.mem_cons, List.mem_singleton, List.not_mem_nil, or_false] at hx
    rcases hx with rfl | rfl | rfl
    · simpa using F64.round_natCast 10 (by norm_num)
    · simpa using F64.round_natCast 20 (by norm_num)
    · simpa using F64.round_natCast 30 (by norm_num)
  have h := rateMeter_positive_window Metrics.zero [10, 20, 30] h1 h2 h3
  ⟨h1, h2, h3, h.1, h.2.2.2.1⟩

/-- C2: whatever happened before, a window in which no sample arrives between
its two ticks publishes `{0, 0, 0, 0}`; so does a first window without samples. -/
theorem rateMeter_idle_window (s : Meter) (h : List Event) :
    (rateMeter s (h ++ [Event.tick, Event.tick])).CurrentMetrics
      = ⟨.fin 0, .fin 0, .fin 0, .fin 0⟩ ∧
    (rateMeter Meter.init [Event.tick]).CurrentMetrics = ⟨.fin 0, .fin 0, .fin 0, .fin 0⟩ := by
  constructor
  · rw [rateMeter_append]
    simp [rateMeter, Meter.step, onTick, tickAvg, Metrics.Update, Metrics.zero]
  · simp [rateMeter, Meter.step, Meter.init, onTick, tickAvg, Metrics.Update, Metrics.zero]

/-- C3 fails as stated: in the window `[0, 5]` the second sample finds the
lower bound equal to `0`, takes it for unset and replaces it, so the published
min is `5` although the sample `0` is smaller. -/
theorem rateMeter_zero_sample_min_lost :
    (accumulate Metrics.zero [0]).ReadMin = .fin 0 ∧
    (onSample (accumulate Metrics.zero [0]) (sampleOf 5)).ReadMin = .fin 5 ∧
    (0 : ℚ) ∈ ([0, 5] : List ℚ) ∧
    (publishedAfter Metrics.zero [0, 5]).ReadMin = .fin 5 ∧
    (F64.fin 0).lt (publishedAfter Metrics.zero [0, 5]).ReadMin = true ∧
    ¬ (∀ x ∈ ([0, 5] : List ℚ), (publishedAfter Metrics.zero [0, 5]).ReadMin.val ≤ x) := by
  have h0 : (accumulate Metrics.zero [0]).ReadMin = .fin 0 := by
    have : accumulate Metrics.zero [0] = onSample Metrics.zero (sampleOf 0) := rfl
    rw [this, onSample_ReadMin]
    simp [Metrics.zero, sampleOf]
  have h5 : (onSample (accumulate Metrics.zero [0]) (sampleOf 5)).ReadMin = .fin 5 := by
    rw [onSample_ReadMin, h0]
    simp [sampleOf]
  have hp : (publishedAfter Metrics.zero [0, 5]).ReadMin = .fin 5 := by
    rw [publishedAfter_eq]
    exact h5
  refine ⟨h0, h5, by simp, hp, ?_, ?_⟩
  · rw [hp]; simp
  · intro hall
    have := hall 0 (by simp)
    rw [hp] at this
    norm_num [F64.val] at this

/-- C3, amended: the first sample of a window establishes both bounds whatever
its latency and count; a later sample updates a non-zero bound as
`max(maxLatency, latencyMs)` and `min(minLatency, latencyMs)` and replaces a
bound equal to zero; for a non-empty window without a zero latency the
published max and min are the greatest and the least latency of the window;
for a non-empty window without a negative latency, zeros included, the
published max is still the greatest latency. -/
theorem rateMeter_bounds_nonzero (cur : Metrics) (ls : List ℚ) (hne : ls ≠ [])
    (hnz : ∀ x ∈ ls, x ≠ 0) :
    (∀ t : Counters, (onSample Metrics.zero t).ReadMax = t.Read ∧
      (onSample Metrics.zero t).ReadMin = t.Read) ∧
    (∀ (c : Metrics) (t : Counters) (a b x : ℚ),
      c.ReadMax = .fin a → c.ReadMin = .fin b → t.Read = .fin x →
      (onSample c t).ReadMax = .fin (if a = 0 then x else max a x) ∧
      (onSample c t).ReadMin = .fin (if b = 0 then x else min b x)) ∧
    (∃ M ∈ ls, (publishedAfter cur ls).ReadMax = .fin M ∧ ∀ x ∈ ls, x ≤ M) ∧
    (∃ m ∈ ls, (publishedAfter cur ls).ReadMin = .fin m ∧ ∀ x ∈ ls, m ≤ x) ∧
    (∀ ns : List ℚ, ns ≠ [] → (∀ x ∈ ns, 0 ≤ x) →
      ∃ M ∈ ns, (publishedAfter cur ns).ReadMax = .fin M ∧ ∀ x ∈ ns, x ≤ M) := by
  have hb := accumulate_bounds ls hne hnz
  refine ⟨?_, ?_, ?_, ?_, ?_⟩
  · intro t
    simp [onSample_ReadMax, onSample_ReadMin, Metrics.zero]
  · intro c t a b x ha hb' hx
    rw [onSample_ReadMax, onSample_ReadMin, ha, hb', hx]
    simp only [F64.lt_fin_fin, F64.isZero_fin, Bool.or_eq_true, decide_eq_true_eq]
    constructor
    · by_cases h0 : a = 0
      · simp [h0]
      · simp only [h0, or_false, if_false]
        split_ifs with h
        · rw [max_eq_right (le_of_lt h)]
        · rw [max_eq_left (not_lt.1 h)]
    · by_cases h0 : b = 0
      · simp [h0]
      · simp only [h0, or_false, if_false]
        split_ifs with h
        · rw [min_eq_right (le_of_lt h)]
        · rw [min_eq_left (not_lt.1 h)]
  · rw [publishedAfter_eq]; exact hb.1
  · rw [publishedAfter_eq]; exact hb.2
  · intro ns hns hnn
    rw [publishedAfter_eq]
    exact accumulate_max_nonneg ns hns hnn

/-- Witness of the amended C3: the window `[-3, 2]`. -/
theorem rateMeter_bounds_nonzero_witness :
    ([-3, 2] : List ℚ) ≠ [] ∧ (∀ x ∈ ([-3, 2] : List ℚ), x ≠ 0) ∧
    (∃ M ∈ ([-3, 2] : List ℚ), (publishedAfter Metrics.zero [-3, 2]).ReadMax = .fin M ∧
      ∀ x ∈ ([-3, 2] : List ℚ), x ≤ M) ∧
    (∃ m ∈ ([-3, 2] : List ℚ), (publishedAfter Metrics.zero [-3, 2]).ReadMin = .fin m ∧
      ∀ x ∈ ([-3, 2] : List ℚ), m ≤ x) :=
  have h1 : ([-3, 2] : List ℚ) ≠ [] := by simp
  have h2 : ∀ x ∈ ([-3, 2] : List ℚ), x ≠ 0 := by
    intro x hx
    simp only [List.mem_cons, List.mem_singleton, List.not_mem_nil, or_false] at hx
    rcases hx with rfl | rfl <;> norm_num
  have h := rateMeter_bounds_nonzero Metrics.zero [-3, 2] h1 h2
  ⟨h1, h2, h.2.2.1, h.2.2.2.1⟩

/-- C9: the accumulator is all-zero after every tick, whatever came before;
a first sample of latency 0 then leaves max = 0 and min = 0 in the
accumulator, and a window whose only sample has latency 0 publishes max = 0
and min = 0. The same holds for the first window of the run. -/
theorem rateMeter_zero_first_sample (s : Meter) (h : List Event) (k : F64) :
    (rateMeter s (h ++ [Event.tick])).c = ⟨.fin 0, .fin 0, .fin 0, .fin 0⟩ ∧
    ((rateMeter s (h ++ [Event.tick, Event.sample ⟨.fin 0, k⟩])).c.ReadMax = .fin 0 ∧
      (rateMeter s (h ++ [Event.tick, Event.sample ⟨.fin 0, k⟩])).c.ReadMin = .fin 0) ∧
    ((rateMeter s (h ++ [Event.tick, Event.sample ⟨.fin 0, k⟩,
        Event.tick])).CurrentMetrics.ReadMax = .fin 0 ∧
      (rateMeter s (h ++ [Event.tick, Event.sample ⟨.fin 0, k⟩,
        Event.tick])).CurrentMetrics.ReadMin = .fin 0) ∧
    ((rateMeter Meter.init [Event.sample ⟨.fin 0, k⟩]).c.ReadMax = .fin 0 ∧
      (rateMeter Meter.init [Event.sample ⟨.fin 0, k⟩]).c.ReadMin = .fin 0) ∧
    ((rateMeter Meter.init [Event.sample ⟨.fin 0, k⟩, Event.tick]).CurrentMetrics.ReadMax
        = .fin 0 ∧
      (rateMeter Meter.init [Event.sample ⟨.fin 0, k⟩, Event.tick]).CurrentMetrics.ReadMin
        = .fin 0) := by
  refine ⟨?_, ⟨?_, ?_⟩, ⟨?_, ?_⟩, ⟨?_, ?_⟩, ⟨?_, ?_⟩⟩
  · rw [rateMeter_append]
    simp [rateMeter, Meter.step, onTick, Metrics.zero]
  all_goals
    first
    | rw [rateMeter_append]
      simp [rateMeter, Meter.step, onTick, onSample_ReadMax, onSample_ReadMin,
        Metrics.Update, Metrics.zero]
    | simp [rateMeter, Meter.step, Meter.init, onTick, onSample_ReadMax, onSample_ReadMin,
        Metrics.Update, Metrics.zero]

/-- C10: for any latencies received with count 1 in one window, the accumulator
at the tick has sumLatency = their `float64` sum and count = their number (as
`float64` counts it); the tick publishes rate = count and avg = the `float64`
quotient sumLatency / count when sumLatency > 0 and avg = 0 otherwise; when
sumLatency > 0 the divisor count is a whole number, at least 1. The guard
matters: for the empty window the quotient would be `0 / 0`, a NaN, and the
published avg is 0. -/
theorem rateMeter_tick_guard (cur : Metrics) (ls : List ℚ) :
    (accumulate Metrics.zero ls).ReadAVG = floatSum ls ∧
    (accumulate Metrics.zero ls).Rate = floatCount ls.length ∧
    (publishedAfter cur ls).Rate = (accumulate Metrics.zero ls).Rate ∧
    (publishedAfter cur ls).ReadAVG =
      (if (F64.fin 0).lt (accumulate Metrics.zero ls).ReadAVG
        then (accumulate Metrics.zero ls).ReadAVG.div (accumulate Metrics.zero ls).Rate
        else .fin 0) ∧
    ((F64.fin 0).lt (accumulate Metrics.zero ls).ReadAVG = true →
      ∃ k : ℕ, 1 ≤ k ∧ (accumulate Metrics.zero ls).Rate = .fin k) ∧
    (publishedAfter cur []).ReadAVG = .fin 0 ∧
    (accumulate Metrics.zero []).ReadAVG.div (accumulate Metrics.zero []).Rate = .nan := by
  refine ⟨accumulate_ReadAVG ls, accumulate_Rate ls, ?_, ?_, ?_, ?_, ?_⟩
  · rw [publishedAfter_eq]
  · rw [publishedAfter_eq]
    rfl
  · intro hpos
    have hne : ls ≠ [] := by
      rintro rfl
      simp [accumulate_nil, Metrics.zero] at hpos
    rw [accumulate_Rate]
    refine ⟨min ls.length (2 ^ 53), ?_, rfl⟩
    have : 1 ≤ ls.length := List.length_pos.2 hne
    exact le_min this (by norm_num)
  · rw [publishedAfter_eq]
    simp [tickAvg, accumulate_nil, Metrics.zero]
  · simp [accumulate_nil, Metrics.zero, F64.div, F64.val]

/-! ## Claims on the metrics store -/

theorem runStore_snoc (m : Metrics) (calls : List StoreCall) (c : StoreCall) :
    runStore m (calls ++ [c]) = StoreCall.apply (runStore m calls) c := by
  simp [runStore, List.foldl_append]

/-- C8: `GetCurrent` after `Update(a, mx, mn, r)` returns `{a, mx, mn, r}` whatever
was stored before; `GetCurrent` returns the stored snapshot and leaves it as it
is; after any sequence of calls `GetCurrent` returns the arguments of the most
recent `Update`, and the initial snapshot (all-zero from `main`) when there
was none. -/
theorem store_get_after_update (m : Metrics) (a mx mn r : F64) (calls : List StoreCall) :
    (m.Update a mx mn r).GetCurrent.1 = ⟨a, mx, mn, r⟩ ∧
    m.GetCurrent = (m, m) ∧
    (runStore m calls).GetCurrent.1 = (lastUpdate? calls).getD m ∧
    (runStore Metrics.zero calls).GetCurrent.1
      = (lastUpdate? calls).getD ⟨.fin 0, .fin 0, .fin 0, .fin 0⟩ := by
  have key : ∀ m0 : Metrics, (runStore m0 calls).GetCurrent.1 = (lastUpdate? calls).getD m0 := by
    intro m0
    induction calls using List.reverseRecOn with
    | nil => rfl
    | append_singleton cs c ih =>
      rw [runStore_snoc]
      cases c with
      | update ra rm rn r0 =>
        simp [lastUpdate?, StoreCall.args?, StoreCall.apply, Metrics.Update,
          Metrics.GetCurrent, List.filterMap_append]
      | getCurrent =>
        simpa [lastUpdate?, StoreCall.args?, StoreCall.apply, Metrics.GetCurrent,
          List.filterMap_append] using ih
  exact ⟨rfl, rfl, key m, key Metrics.zero⟩

/-! ## Claims on the workload generator and the control handlers -/

/-- Inside one wall-clock second the emitted latency is the elapsed time,
rounded to `float64`. -/
theorem workloadGenSample_same_second (now done : Int)
    (h : now / 1000000000 = done / 1000000000) :
    workloadGenSample now done = ⟨F64.round (elapsedMs now done), .fin 1⟩ := by
  unfold workloadGenSample elapsedMs Nanosecond
  have e : done % 1000000000 - now % 1000000000 = done - now := by
    rw [Int.emod_def, Int.emod_def, h]
    ring
  have b1 := Int.emod_nonneg done (by norm_num : (1000000000 : Int) ≠ 0)
  have b2 := Int.emod_lt_of_pos done (by norm_num : (0 : Int) < 1000000000)
  have b3 := Int.emod_nonneg now (by norm_num : (1000000000 : Int) ≠ 0)
  have b4 := Int.emod_lt_of_pos now (by norm_num : (0 : Int) < 1000000000)
  have hb : (done - now).natAbs ≤ 2 ^ 53 := by
    rw [← e]
    have : (2 : ℕ) ^ 53 = 9007199254740992 := by norm_num
    omega
  rw [e]
  unfold F64.ofInt
  rw [F64.round_intCast _ hb]
  by_cases hd : done - now = 0
  · rw [hd]
    simp [F64.div, F64.val, F64.signBit, F64.zero, F64.round]
  · have hq : ((done - now : Int) : ℚ) ≠ 0 := by exact_mod_cast hd
    rw [F64.div_fin_fin _ _ hq (by norm_num)]

/-- C4 fails on the code: a read that begins 900 ms into one second and ends
100 ms into the next took 200 ms, and the sample sent has count 1 but latency
-800 ms, because `Nanosecond()` is the offset within the second. -/
theorem workloadGenSample_across_second :
    (900000000 : Int) ≤ 1100000000 ∧
    workloadGenSample 900000000 1100000000 = ⟨.fin (-800), .fin 1⟩ ∧
    elapsedMs 900000000 1100000000 = 200 ∧
    (workloadGenSample 900000000 1100000000).Read.lt (.fin 0) = true := by
  have hs : workloadGenSample 900000000 1100000000 = ⟨.fin (-800), .fin 1⟩ := by
    have hn : Nanosecond 1100000000 - Nanosecond 900000000 = -800000000 := by decide
    have r1 : F64.round (-800000000) = .fin (-800000000) := by
      simpa using F64.round_intCast (-800000000) (by decide)
    have r2 : F64.round (-800) = .fin (-800) := by
      simpa using F64.round_intCast (-800) (by decide)
    unfold workloadGenSample
    rw [hn]
    norm_num [F64.ofInt, r1, r2, F64.div_fin_fin]
  refine ⟨by decide, hs, ?_, ?_⟩
  · norm_num [elapsedMs]
  · rw [hs]
    simp

theorem World.stoppable_step (g g1 : World) (a : Act) (ha : a.atomic = true)
    (hg : g.stoppable) (h : g.step a = some g1) : g1.stoppable := by
  cases a with
  | run r =>
    simp only [World.step, Option.some.injEq] at h
    subst h
    unfold apiRun
    split_ifs
    · exact hg
    · exact hg
  | stop r k =>
    intro hr
    simp only [World.step] at h
    cases hrun : g.workloadRunning with
    | false =>
      have e : apiStop r g = some (⟨StatusOK, "success\n"⟩, g) := by simp [apiStop, hrun]
      rw [e] at h
      simp only [hrun, Bool.false_eq_true, if_false, Option.some.injEq] at h
      subst h
      rw [hrun] at hr
      exact absurd hr (by simp)
    | true =>
      cases he : g.executing.isEmpty with
      | true =>
        have e : apiStop r g = none := by simp [apiStop, hrun, he]
        rw [e] at h
        exact absurd h (by simp)
      | false =>
        have e : apiStop r g = some (⟨StatusOK, "success\n"⟩,
            { g with stopsSent := g.stopsSent + 1, workloadRunning := false }) := by
          simp [apiStop, hrun, he]
        rw [e] at h
        simp only [hrun, if_true, workloadGenStop] at h
        split_ifs at h
        simp only [Option.some.injEq] at h
        subst h
        simp at hr
  | begin k =>
    simp only [World.step, workloadGenBegin] at h
    intro _
    split at h
    · exact absurd h (by simp)
    · simp only [Option.some.injEq] at h
      subst h
      simp
  | stopTest r => simp [Act.atomic] at ha
  | stopSend k => simp [Act.atomic] at ha

theorem World.stoppable_run (acts : List Act) (g g1 : World)
    (ha : ∀ a ∈ acts, a.atomic = true) (hg : g.stoppable)
    (h : g.run acts = some g1) : g1.stoppable := by
  induction acts generalizing g with
  | nil =>
    simp only [World.run, Option.some.injEq] at h
    exact h ▸ hg
  | cons a as ih =>
    simp only [World.run] at h
    cases hs : g.step a with
    | none => simp [hs] at h
    | some g2 =>
      simp only [hs] at h
      exact ih g2 (fun b hb => ha b (List.mem_cons_of_mem _ hb))
        (World.stoppable_step g g2 a (ha a (List.mem_cons_self _ _)) hg hs) h

theorem World.stoppable_init : World.init.stoppable := by
  intro h
  simp [World.init] at h

/-- C6: with `workloadRunning` set, `apiRun` answers status 400 with the line
"Workload already running" and returns the state it was given, for every
request: no goroutine is started and the flag stays set. -/
theorem apiRun_conflict (r : Request) (g : World) (h : g.workloadRunning = true) :
    apiRun r g = (⟨400, "Workload already running\n"⟩, g) ∧
    g.step (Act.run r) = some g ∧
    (apiRun r g).2.live = g.live ∧
    (apiRun r g).2.workloadRunning = true := by
  have e : apiRun r g = (⟨400, "Workload already running\n"⟩, g) := by
    simp [apiRun, h, StatusBadRequest]
  refine ⟨e, ?_, ?_, ?_⟩
  · simp [World.step, e]
  · rw [e]
  · rw [e]; exact h

/-- Witness of C6: a running state with one executing instance, and a request
carrying `interval=250`. -/
theorem apiRun_conflict_witness :
    (⟨true, 0, [], [1000000000], 0⟩ : World).workloadRunning = true ∧
    apiRun ⟨[("interval", "250")]⟩ ⟨true, 0, [], [1000000000], 0⟩
      = (⟨400, "Workload already running\n"⟩, ⟨true, 0, [], [1000000000], 0⟩) :=
  ⟨rfl, (apiRun_conflict ⟨[("interval", "250")]⟩ ⟨true, 0, [], [1000000000], 0⟩ rfl).1⟩

/-- C7 fails as stated: with `workloadRunning` set and no instance executing
the send on the unbuffered channel has no receiver and `apiStop` writes no
answer. Two stop requests that overlap reach this: both find the flag set, the
only instance receives the first value and returns, and the second handler
stays in its send, whatever instance it would wait for. -/
theorem apiStop_blocked_without_receiver :
    apiStop ⟨[]⟩ ⟨true, 0, [], [], 0⟩ = none ∧
    World.init.run [Act.run ⟨[]⟩, Act.begin 0, Act.stopTest ⟨[]⟩, Act.stopTest ⟨[]⟩,
        Act.stopSend 0] = some ⟨false, 1, [], [], 1⟩ ∧
    (∀ k, (⟨false, 1, [], [], 1⟩ : World).step (Act.stopSend k) = none) := by
  refine ⟨by decide, by decide, ?_⟩
  intro k
  simp [World.step, apiStopSend]

/-- C7, amended: whenever `apiStop` answers, it answers "success". With the flag
unset it answers, sends nothing and returns the state as it was, so any number
of calls changes nothing. With the flag set and an instance executing it sends
exactly one value on `stoppWorkload`, unsets the flag and answers; with the
flag set and no instance executing it gives no answer. In every state that
handlers run one after the other can reach, it answers. -/
theorem apiStop_answers (r : Request) (g : World) (n : Nat) (acts : List Act) :
    (∀ resp g1, apiStop r g = some (resp, g1) → resp = ⟨200, "success\n"⟩) ∧
    apiStop r { g with workloadRunning := false }
      = some (⟨200, "success\n"⟩, { g with workloadRunning := false }) ∧
    apiStopTimes r n { g with workloadRunning := false }
      = some { g with workloadRunning := false } ∧
    (g.workloadRunning = true → g.executing ≠ [] →
      apiStop r g = some (⟨200, "success\n"⟩,
        { g with workloadRunning := false, stopsSent := g.stopsSent + 1 })) ∧
    (g.workloadRunning = true → g.executing = [] → apiStop r g = none) ∧
    (∀ g1, (∀ a ∈ acts, a.atomic = true) → World.init.run acts = some g1 →
      (apiStop r g1).isSome = true) := by
  have hoff : apiStop r { g with workloadRunning := false }
      = some (⟨200, "success\n"⟩, { g with workloadRunning := false }) := by
    simp [apiStop, StatusOK]
  refine ⟨?_, hoff, ?_, ?_, ?_, ?_⟩
  · intro resp g1 h
    unfold apiStop at h
    split_ifs at h <;> simp only [Option.some.injEq, Prod.mk.injEq] at h
    · exact h.1.symm
    · exact h.1.symm
  · induction n with
    | zero => rfl
    | succ n ih =>
      simp only [apiStopTimes, hoff]
      exact ih
  · intro hr he
    have : g.executing.isEmpty = false := by
      cases hx : g.executing with
      | nil => exact absurd hx he
      | cons a l => rfl
    simp [apiStop, hr, this, StatusOK]
  · intro hr he
    simp [apiStop, hr, he]
  · intro g1 ha h1
    have hs := World.stoppable_run acts World.init g1 ha World.stoppable_init h1
    by_cases hr : g1.workloadRunning = true
    · have hne := hs hr
      have : g1.executing.isEmpty = false := by
        cases hx : g1.executing with
        | nil => exact absurd hx hne
        | cons a l => rfl
      simp [apiStop, hr, this]
    · simp [apiStop, hr]

/-- C5 fails on the code: `apiRun` starts the goroutine and leaves
`workloadRunning` unset (only `workloadGen` sets it, once it executes), so a
second run request handled before the first goroutine has begun is answered
"success" and starts a second one; both then execute. -/
theorem apiRun_twice_two_runners :
    World.init.run [Act.run ⟨[]⟩, Act.run ⟨[]⟩]
      = some ⟨false, 0, [1000000000, 1000000000], [], 0⟩ ∧
    World.init.runResponses [Act.run ⟨[]⟩, Act.run ⟨[]⟩]
      = [⟨200, "success\n"⟩, ⟨200, "success\n"⟩] ∧
    (World.init.run [Act.run ⟨[]⟩, Act.run ⟨[]⟩]).map World.live = some 2 ∧
    World.init.run [Act.run ⟨[]⟩, Act.run ⟨[]⟩, Act.begin 0, Act.begin 0]
      = some ⟨true, 0, [], [1000000000, 1000000000], 0⟩ ∧
    (World.init.run [Act.run ⟨[]⟩, Act.run ⟨[]⟩, Act.begin 0, Act.begin 0]).map World.live
      = some 2 := by
  decide

end NfsTest
